import Mathlib

set_option maxHeartbeats 1000000

/-!
Shallow embedding of the tktr portfolio backend (src/space/server.js and
src/space/db.js): the JSON value grammar used for project link lists, the
five-table database state, and every HTTP handler of the server, together
with proofs of the specification's testable properties.
-/

/-- JSON values as stored in the projects table's links_json column and
exchanged with clients. Numerals are modelled as integers: the link lists
this server round-trips carry string fields, and floating point is outside
the embedding. -/
inductive Json where
  | null : Json
  | bool : Bool → Json
  | num : Int → Json
  | str : String → Json
  | arr : List Json → Json
  | obj : List (String × Json) → Json

/-- Escape one character the way JSON.stringify does: quote and backslash
get a backslash escape, control characters get the short escapes or a
four-digit hex escape, everything else passes through. -/
def escChar (c : Char) : List Char :=
  if c = '"' then ['\\', '"']
  else if c = '\\' then ['\\', '\\']
  else if c.toNat < 32 then
    if c = '\x08' then ['\\', 'b']
    else if c = '\x09' then ['\\', 't']
    else if c = '\x0a' then ['\\', 'n']
    else if c = '\x0c' then ['\\', 'f']
    else if c = '\x0d' then ['\\', 'r']
    else ['\\', 'u', '0', '0', Nat.digitChar (c.toNat / 16), Nat.digitChar (c.toNat % 16)]
  else [c]

def escStr : List Char → List Char
  | [] => []
  | c :: cs => escChar c ++ escStr cs

/-- A JSON string literal: quote, escaped body, quote. -/
def encStr (s : String) : List Char := '"' :: (escStr s.data ++ ['"'])

/-- Decimal digits of a natural number, most significant first. -/
def natDigs (n : Nat) : List Char :=
  if n < 10 then [Nat.digitChar n]
  else natDigs (n / 10) ++ [Nat.digitChar (n % 10)]
termination_by n
decreasing_by omega

/-- A JSON integer numeral as JSON.stringify prints it. -/
def encInt (n : Int) : List Char :=
  if n < 0 then '-' :: natDigs n.natAbs else natDigs n.natAbs

mutual

/-- Compact serialization of a JSON value, mirroring JSON.stringify with no
spacing argument. -/
def encVal : Json → List Char
  | .null => "null".data
  | .bool true => "true".data
  | .bool false => "false".data
  | .num n => encInt n
  | .str s => encStr s
  | .arr xs => '[' :: (encElems xs ++ [']'])
  | .obj fs => '\x7b' :: (encFields fs ++ ['\x7d'])

def encElems : List Json → List Char
  | [] => []
  | [x] => encVal x
  | x :: y :: ys => encVal x ++ ',' :: encElems (y :: ys)

def encFields : List (String × Json) → List Char
  | [] => []
  | [(k, v)] => encStr k ++ ':' :: encVal v
  | (k, v) :: f :: fs => encStr k ++ ':' :: encVal v ++ ',' :: encFields (f :: fs)

end

/-- The text JSON.stringify produces for a value of our grammar. -/
def stringifyJson (v : Json) : String := String.mk (encVal v)

/-- The whitespace characters the JSON grammar allows between tokens. -/
def jsonWs (c : Char) : Bool := c = ' ' || c = '\x09' || c = '\x0a' || c = '\x0d'

def skipWs : List Char → List Char
  | [] => []
  | c :: cs => if jsonWs c then skipWs cs else c :: cs

/-- Value of a hexadecimal digit character, as JSON.parse reads \u escapes. -/
def hexVal (c : Char) : Option Nat :=
  if '0' ≤ c ∧ c ≤ '9' then some (c.toNat - 48)
  else if 'a' ≤ c ∧ c ≤ 'f' then some (c.toNat - 87)
  else if 'A' ≤ c ∧ c ≤ 'F' then some (c.toNat - 55)
  else none

/-- Parse the body of a JSON string literal after the opening quote, undoing
the escapes, returning the characters and the input after the closing
quote. Models the string production of JSON.parse (surrogate pairs are
outside the embedding: Lean characters are scalar values). -/
def parseStrBody : List Char → Option (List Char × List Char)
  | [] => none
  | c :: cs =>
    if c = '"' then some ([], cs)
    else if c = '\\' then
      match cs with
      | [] => none
      | e :: cs2 =>
        if e = '"' then (parseStrBody cs2).map (fun p => ('"' :: p.1, p.2))
        else if e = '\\' then (parseStrBody cs2).map (fun p => ('\\' :: p.1, p.2))
        else if e = '/' then (parseStrBody cs2).map (fun p => ('/' :: p.1, p.2))
        else if e = 'b' then (parseStrBody cs2).map (fun p => ('\x08' :: p.1, p.2))
        else if e = 'f' then (parseStrBody cs2).map (fun p => ('\x0c' :: p.1, p.2))
        else if e = 'n' then (parseStrBody cs2).map (fun p => ('\x0a' :: p.1, p.2))
        else if e = 'r' then (parseStrBody cs2).map (fun p => ('\x0d' :: p.1, p.2))
        else if e = 't' then (parseStrBody cs2).map (fun p => ('\x09' :: p.1, p.2))
        else if e = 'u' then
          match cs2 with
          | h1 :: h2 :: h3 :: h4 :: cs3 =>
            match hexVal h1, hexVal h2, hexVal h3, hexVal h4 with
            | some a, some b, some c2, some d =>
              (parseStrBody cs3).map
                (fun p => (Char.ofNat (4096 * a + 256 * b + 16 * c2 + d) :: p.1, p.2))
            | _, _, _, _ => none
          | _ => none
        else none
    else (parseStrBody cs).map (fun p => (c :: p.1, p.2))

/-- Consume a run of decimal digits, accumulating their value. -/
def parseDigits : List Char → Nat → Nat × List Char
  | [], acc => (acc, [])
  | c :: cs, acc => if c.isDigit then parseDigits cs (10 * acc + (c.toNat - 48)) else (acc, c :: cs)

/-- Parse an integer numeral: optional minus sign then at least one digit.
Fractional and exponent forms are outside the integer grammar the encoder
emits; on them the numeral stops at the dot. -/
def parseNum : List Char → Option (Int × List Char)
  | [] => none
  | c :: cs =>
    if c = '-' then
      match cs with
      | [] => none
      | c2 :: cs2 =>
        if c2.isDigit then
          let p := parseDigits (c2 :: cs2) 0
          some (-(p.1 : Int), p.2)
        else none
    else if c.isDigit then
      let p := parseDigits (c :: cs) 0
      some ((p.1 : Int), p.2)
    else none

mutual

/-- Fuel-indexed recursive-descent parser for a JSON value, modelling
JSON.parse on the grammar the server stores. Returns the value and the
unconsumed input. -/
def parseVal : Nat → List Char → Option (Json × List Char)
  | 0, _ => none
  | fuel + 1, cs =>
    match skipWs cs with
    | [] => none
    | c :: rest =>
      if c = 'n' then
        match rest with
        | 'u' :: 'l' :: 'l' :: r => some (.null, r)
        | _ => none
      else if c = 't' then
        match rest with
        | 'r' :: 'u' :: 'e' :: r => some (.bool true, r)
        | _ => none
      else if c = 'f' then
        match rest with
        | 'a' :: 'l' :: 's' :: 'e' :: r => some (.bool false, r)
        | _ => none
      else if c = '"' then
        (parseStrBody rest).map (fun p => (.str (String.mk p.1), p.2))
      else if c = '[' then
        match skipWs rest with
        | [] => none
        | c2 :: r2 =>
          if c2 = ']' then some (.arr [], r2)
          else (parseElems fuel (c2 :: r2)).map (fun p => (.arr p.1, p.2))
      else if c = '\x7b' then
        match skipWs rest with
        | [] => none
        | c2 :: r2 =>
          if c2 = '\x7d' then some (.obj [], r2)
          else (parseFields fuel (c2 :: r2)).map (fun p => (.obj p.1, p.2))
      else (parseNum (c :: rest)).map (fun p => (.num p.1, p.2))

/-- Parse the elements of a non-empty array body up to and including the
closing bracket. -/
def parseElems : Nat → List Char → Option (List Json × List Char)
  | 0, _ => none
  | fuel + 1, cs =>
    match parseVal fuel cs with
    | none => none
    | some (v, rest) =>
      match skipWs rest with
      | [] => none
      | c :: rest2 =>
        if c = ',' then (parseElems fuel rest2).map (fun p => (v :: p.1, p.2))
        else if c = ']' then some ([v], rest2)
        else none

/-- Parse the members of a non-empty object body up to and including the
closing brace. -/
def parseFields : Nat → List Char → Option (List (String × Json) × List Char)
  | 0, _ => none
  | fuel + 1, cs =>
    match skipWs cs with
    | '"' :: rest =>
      match parseStrBody rest with
      | none => none
      | some (k, rest2) =>
        match skipWs rest2 with
        | ':' :: rest3 =>
          match parseVal fuel rest3 with
          | none => none
          | some (v, rest4) =>
            match skipWs rest4 with
            | [] => none
            | c :: rest5 =>
              if c = ',' then
                (parseFields fuel rest5).map (fun p => ((String.mk k, v) :: p.1, p.2))
              else if c = '\x7d' then some ([(String.mk k, v)], rest5)
              else none
        | _ => none
    | _ => none

end

/-- JSON.parse of a whole document: one value, then only whitespace. -/
def parseJson (s : String) : Option Json :=
  match parseVal (s.data.length + 1) s.data with
  | some (v, rest) => if skipWs rest = [] then some v else none
  | none => none

mutual

/-- Structural size of a JSON value, used as the fuel bound for the parser. -/
def jsize : Json → Nat
  | .arr xs => lsize xs + 1
  | .obj fs => fsize fs + 1
  | _ => 1

def lsize : List Json → Nat
  | [] => 0
  | x :: xs => jsize x + lsize xs + 1

def fsize : List (String × Json) → Nat
  | [] => 0
  | f :: fs => jsize f.2 + fsize fs + 1

end

theorem jsize_pos (v : Json) : 1 ≤ jsize v := by
  cases v <;> simp [jsize]

/-- Input whose head, if any, is not a digit: what may legally follow a
serialized numeral. -/
def goodF : List Char → Prop
  | [] => True
  | c :: _ => c.isDigit = false

theorem digitChar_isDigit (d : Nat) (h : d < 10) : (Nat.digitChar d).isDigit = true := by
  interval_cases d <;> decide

theorem digitChar_toNat (d : Nat) (h : d < 10) : (Nat.digitChar d).toNat = 48 + d := by
  interval_cases d <;> decide

/-- Digit characters collide with none of the structural characters the
parser dispatches on, and are not whitespace. -/
theorem digitChar_ne (d : Nat) (h : d < 10) :
    jsonWs (Nat.digitChar d) = false ∧ Nat.digitChar d ≠ '-' ∧
    Nat.digitChar d ≠ 'n' ∧ Nat.digitChar d ≠ 't' ∧ Nat.digitChar d ≠ 'f' ∧
    Nat.digitChar d ≠ '"' ∧ Nat.digitChar d ≠ '[' ∧ Nat.digitChar d ≠ '\x7b' ∧
    Nat.digitChar d ≠ ']' ∧ Nat.digitChar d ≠ '\x7d' := by
  interval_cases d <;> decide

theorem natDigs_head (n : Nat) : ∃ d t, natDigs n = Nat.digitChar d :: t ∧ d < 10 := by
  rw [natDigs]
  by_cases h : n < 10
  · exact ⟨n, [], by simp [h], h⟩
  · rw [if_neg h]
    obtain ⟨d, t, ht, hd⟩ := natDigs_head (n / 10)
    exact ⟨d, t ++ [Nat.digitChar (n % 10)], by simp [ht], hd⟩
termination_by n
decreasing_by omega

theorem parseDigits_stop (rest : List Char) (acc : Nat) (h : goodF rest) :
    parseDigits rest acc = (acc, rest) := by
  cases rest with
  | nil => rfl
  | cons c t => simp only [goodF] at h; simp [parseDigits, h]

theorem parseDigits_natDigs (n : Nat) :
    ∀ acc rest, parseDigits (natDigs n ++ rest) acc =
      parseDigits rest (acc * 10 ^ (natDigs n).length + n) := by
  intro acc rest
  rw [natDigs]
  by_cases h : n < 10
  · rw [if_pos h]
    simp only [List.singleton_append, parseDigits, digitChar_isDigit n h, if_pos,
      digitChar_toNat n h, List.length_singleton]
    congr 1
    omega
  · rw [if_neg h]
    rw [List.append_assoc, List.singleton_append]
    rw [parseDigits_natDigs (n / 10)]
    have h10 := Nat.mod_lt n (show 0 < 10 by omega)
    simp only [parseDigits, digitChar_isDigit _ h10, if_pos, digitChar_toNat _ h10,
      List.length_append, List.length_singleton]
    congr 1
    have hmod := Nat.div_add_mod n 10
    have hpow : acc * 10 ^ ((natDigs (n / 10)).length + 1) =
        acc * 10 ^ (natDigs (n / 10)).length * 10 := by
      ring
    rw [hpow]
    generalize acc * 10 ^ (natDigs (n / 10)).length = A
    omega
termination_by n
decreasing_by omega

theorem parseNum_encInt (n : Int) (rest : List Char) (h : goodF rest) :
    parseNum (encInt n ++ rest) = some (n, rest) := by
  obtain ⟨d, t, ht, hd⟩ := natDigs_head n.natAbs
  obtain ⟨hws, hminus, _, _, _, _, _, _, _, _⟩ := digitChar_ne d hd
  rw [encInt]
  by_cases hn : n < 0
  · rw [if_pos hn]
    rw [ht]
    simp only [List.cons_append, parseNum, if_pos rfl]
    simp only [digitChar_isDigit d hd, if_pos]
    rw [show Nat.digitChar d :: (t ++ rest) = (Nat.digitChar d :: t) ++ rest from rfl, ← ht]
    rw [parseDigits_natDigs, parseDigits_stop _ _ h]
    simp only [Option.some.injEq, Prod.mk.injEq, and_true]
    omega
  · rw [if_neg hn]
    rw [ht]
    simp only [List.cons_append, parseNum, if_neg hminus]
    simp only [digitChar_isDigit d hd, if_pos]
    rw [show Nat.digitChar d :: (t ++ rest) = (Nat.digitChar d :: t) ++ rest from rfl, ← ht]
    rw [parseDigits_natDigs, parseDigits_stop _ _ h]
    simp only [Option.some.injEq, Prod.mk.injEq, and_true]
    omega

theorem hexVal_digitChar (d : Nat) (h : d < 16) : hexVal (Nat.digitChar d) = some d := by
  interval_cases d <;> decide

theorem hexVal_zeroChar : hexVal '0' = some 0 := by decide

theorem parseStrBody_escStr (l rest : List Char) :
    parseStrBody (escStr l ++ '"' :: rest) = some (l, rest) := by
  induction l with
  | nil =>
    show parseStrBody ('"' :: rest) = some ([], rest)
    rw [parseStrBody.eq_def]
    simp
  | cons c cs ih =>
    show parseStrBody ((escChar c ++ escStr cs) ++ '"' :: rest) = _
    rw [List.append_assoc]
    by_cases h1 : c = '"'
    · subst h1
      simp only [escChar, reduceIte, List.cons_append, List.nil_append]
      rw [parseStrBody.eq_def]
      simp [ih]
    by_cases h2 : c = '\\'
    · subst h2
      simp only [escChar, reduceIte, List.cons_append, List.nil_append]
      rw [parseStrBody.eq_def]
      simp [ih]
    by_cases h3 : c.toNat < 32
    · by_cases hb : c = '\x08'
      · subst hb
        simp only [escChar, reduceIte, List.cons_append, List.nil_append]
        rw [parseStrBody.eq_def]
        simp [ih]
      by_cases ht : c = '\x09'
      · subst ht
        simp only [escChar, reduceIte, List.cons_append, List.nil_append]
        rw [parseStrBody.eq_def]
        simp [ih]
      by_cases hn : c = '\x0a'
      · subst hn
        simp only [escChar, reduceIte, List.cons_append, List.nil_append]
        rw [parseStrBody.eq_def]
        simp [ih]
      by_cases hf : c = '\x0c'
      · subst hf
        simp only [escChar, reduceIte, List.cons_append, List.nil_append]
        rw [parseStrBody.eq_def]
        simp [ih]
      by_cases hr : c = '\x0d'
      · subst hr
        simp only [escChar, reduceIte, List.cons_append, List.nil_append]
        rw [parseStrBody.eq_def]
        simp [ih]
      · have hhi : c.toNat / 16 < 16 := by omega
        have hlo : c.toNat % 16 < 16 := by omega
        simp only [escChar, if_neg h1, if_neg h2, if_pos h3, if_neg hb, if_neg ht,
          if_neg hn, if_neg hf, if_neg hr, List.cons_append, List.nil_append]
        rw [parseStrBody.eq_def]
        simp [hexVal_zeroChar, hexVal_digitChar _ hhi, hexVal_digitChar _ hlo, ih]
        have harith : 16 * (c.toNat / 16) + c.toNat % 16 = c.toNat := by omega
        rw [harith]
        exact Char.ofNat_toNat c
    · simp only [escChar, if_neg h1, if_neg h2, if_neg h3, List.cons_append, List.nil_append]
      rw [parseStrBody.eq_def]
      simp [h1, h2, ih]

theorem stringMk_data (s : String) : String.mk s.data = s := by
  cases s
  rfl

theorem skipWs_cons (c : Char) (cs : List Char) (h : jsonWs c = false) :
    skipWs (c :: cs) = c :: cs := by
  simp [skipWs, h]

theorem lsize_pos (x : Json) (xs : List Json) : 1 ≤ lsize (x :: xs) := by
  simp [lsize]

theorem fsize_pos (f : String × Json) (fs : List (String × Json)) : 1 ≤ fsize (f :: fs) := by
  simp [fsize]

/-- Every serialized value starts with a character that is not whitespace
and is not a closing bracket or brace, so the parser's dispatch never
mistakes it for the end of an enclosing array or object. -/
theorem encVal_head (v : Json) :
    ∃ c t, encVal v = c :: t ∧ jsonWs c = false ∧ c ≠ ']' ∧ c ≠ '\x7d' := by
  cases v with
  | null => exact ⟨'n', _, rfl, by decide, by decide, by decide⟩
  | bool b => cases b
              · exact ⟨'f', _, rfl, by decide, by decide, by decide⟩
              · exact ⟨'t', _, rfl, by decide, by decide, by decide⟩
  | num n =>
    show ∃ c t, encInt n = c :: t ∧ _
    rw [encInt]
    by_cases hn : n < 0
    · rw [if_pos hn]
      exact ⟨'-', _, rfl, by decide, by decide, by decide⟩
    · rw [if_neg hn]
      obtain ⟨d, t, ht, hd⟩ := natDigs_head n.natAbs
      obtain ⟨hws, _, _, _, _, _, _, _, h1, h2⟩ := digitChar_ne d hd
      exact ⟨Nat.digitChar d, t, ht, hws, h1, h2⟩
  | str s => exact ⟨'"', _, rfl, by decide, by decide, by decide⟩
  | arr xs => exact ⟨'[', _, rfl, by decide, by decide, by decide⟩
  | obj fs => exact ⟨'\x7b', _, rfl, by decide, by decide, by decide⟩

/-- Head analysis for serialized numerals: a minus sign or a digit, clashing
with none of the parser's dispatch characters. -/
theorem encInt_head (n : Int) :
    ∃ c t, encInt n = c :: t ∧ jsonWs c = false ∧ c ≠ 'n' ∧ c ≠ 't' ∧ c ≠ 'f' ∧
      c ≠ '"' ∧ c ≠ '[' ∧ c ≠ '\x7b' := by
  rw [encInt]
  by_cases hn : n < 0
  · rw [if_pos hn]
    exact ⟨'-', _, rfl, by decide, by decide, by decide, by decide, by decide, by decide,
      by decide⟩
  · rw [if_neg hn]
    obtain ⟨d, t, ht, hd⟩ := natDigs_head n.natAbs
    obtain ⟨hws, _, hn', ht', hf', hq', hb', hc', _, _⟩ := digitChar_ne d hd
    exact ⟨Nat.digitChar d, t, ht, hws, hn', ht', hf', hq', hb', hc'⟩

theorem parseVal_null (fuel : Nat) (rest : List Char) :
    parseVal (fuel + 1) (encVal .null ++ rest) = some (.null, rest) := by
  rw [show encVal .null ++ rest = 'n' :: 'u' :: 'l' :: 'l' :: rest from rfl]
  simp only [parseVal]
  rw [skipWs_cons _ _ (by decide)]
  simp

theorem parseVal_bool (fuel : Nat) (b : Bool) (rest : List Char) :
    parseVal (fuel + 1) (encVal (.bool b) ++ rest) = some (.bool b, rest) := by
  cases b
  · rw [show encVal (.bool false) ++ rest = 'f' :: 'a' :: 'l' :: 's' :: 'e' :: rest from rfl]
    simp only [parseVal]
    rw [skipWs_cons _ _ (by decide)]
    simp
  · rw [show encVal (.bool true) ++ rest = 't' :: 'r' :: 'u' :: 'e' :: rest from rfl]
    simp only [parseVal]
    rw [skipWs_cons _ _ (by decide)]
    simp

theorem parseVal_str (fuel : Nat) (s : String) (rest : List Char) :
    parseVal (fuel + 1) (encVal (.str s) ++ rest) = some (.str s, rest) := by
  rw [parseVal.eq_def]
  simp only [encVal, encStr, List.cons_append]
  rw [skipWs_cons _ _ (by decide)]
  simp [List.append_assoc, parseStrBody_escStr, stringMk_data]

theorem parseVal_num (fuel : Nat) (n : Int) (rest : List Char) (hg : goodF rest) :
    parseVal (fuel + 1) (encVal (.num n) ++ rest) = some (.num n, rest) := by
  rw [parseVal.eq_def]
  obtain ⟨c, t, hct, hws, h1, h2, h3, h4, h5, h6⟩ := encInt_head n
  simp only [encVal]
  rw [hct]
  simp only [List.cons_append]
  rw [skipWs_cons _ _ hws]
  simp only [if_neg h1, if_neg h2, if_neg h3, if_neg h4, if_neg h5, if_neg h6]
  rw [← List.cons_append, ← hct, parseNum_encInt n rest hg]
  rfl

theorem encElems_cons (x : Json) (xs : List Json) :
    ∃ s, encElems (x :: xs) = encVal x ++ s := by
  cases xs with
  | nil => exact ⟨[], by simp [encElems]⟩
  | cons y ys => exact ⟨',' :: encElems (y :: ys), rfl⟩

theorem parseVal_arr_nil (fuel : Nat) (rest : List Char) :
    parseVal (fuel + 1) (encVal (.arr []) ++ rest) = some (.arr [], rest) := by
  rw [parseVal.eq_def]
  simp only [encVal, encElems, List.nil_append, List.cons_append, List.singleton_append]
  rw [skipWs_cons _ _ (by decide)]
  have h1 : skipWs (']' :: rest) = ']' :: rest := skipWs_cons _ _ (by decide)
  simp [h1]

theorem parseVal_arr_cons (fuel : Nat) (x : Json) (xs : List Json) (rest : List Char) :
    parseVal (fuel + 1) (encVal (.arr (x :: xs)) ++ rest) =
      (parseElems fuel (encElems (x :: xs) ++ ']' :: rest)).map
        (fun p => (Json.arr p.1, p.2)) := by
  rw [parseVal.eq_def]
  obtain ⟨c, t, hct, hws, hne1, hne2⟩ := encVal_head x
  obtain ⟨s, hsEq⟩ := encElems_cons x xs
  simp only [encVal, List.cons_append, List.append_assoc, List.singleton_append]
  rw [skipWs_cons _ _ (by decide)]
  rw [hsEq, hct]
  simp only [List.cons_append, List.append_assoc]
  rw [skipWs_cons _ _ hws]
  simp [hne1]

theorem encFields_cons (k : String) (v : Json) (fs : List (String × Json)) :
    ∃ s, encFields ((k, v) :: fs) = encStr k ++ ':' :: encVal v ++ s := by
  cases fs with
  | nil => exact ⟨[], by simp [encFields]⟩
  | cons f fs2 =>
    obtain ⟨k2, v2⟩ := f
    exact ⟨',' :: encFields ((k2, v2) :: fs2), by simp [encFields]⟩

theorem parseVal_obj_nil (fuel : Nat) (rest : List Char) :
    parseVal (fuel + 1) (encVal (.obj []) ++ rest) = some (.obj [], rest) := by
  rw [parseVal.eq_def]
  simp only [encVal, encFields, List.nil_append, List.cons_append, List.singleton_append]
  rw [skipWs_cons _ _ (by decide)]
  have h1 : skipWs ('\x7d' :: rest) = '\x7d' :: rest := skipWs_cons _ _ (by decide)
  simp [h1]

theorem parseVal_obj_cons (fuel : Nat) (k : String) (v : Json) (fs : List (String × Json))
    (rest : List Char) :
    parseVal (fuel + 1) (encVal (.obj ((k, v) :: fs)) ++ rest) =
      (parseFields fuel (encFields ((k, v) :: fs) ++ '\x7d' :: rest)).map
        (fun p => (Json.obj p.1, p.2)) := by
  rw [parseVal.eq_def]
  obtain ⟨s, hsEq⟩ := encFields_cons k v fs
  simp only [encVal, List.cons_append, List.append_assoc, List.singleton_append]
  rw [skipWs_cons _ _ (by decide)]
  rw [hsEq]
  simp only [encStr, List.cons_append, List.append_assoc]
  rw [skipWs_cons _ _ (by decide)]
  simp

theorem parseElems_one (fuel : Nat) (x : Json) (rest : List Char)
    (hv : parseVal fuel (encVal x ++ ']' :: rest) = some (x, ']' :: rest)) :
    parseElems (fuel + 1) (encElems [x] ++ ']' :: rest) = some ([x], rest) := by
  rw [parseElems.eq_def]
  simp only [encElems]
  rw [hv]
  have h1 : skipWs (']' :: rest) = ']' :: rest := skipWs_cons _ _ (by decide)
  simp [h1]

theorem parseElems_more (fuel : Nat) (x y : Json) (ys : List Json) (rest : List Char)
    (hv : parseVal fuel (encVal x ++ ',' :: (encElems (y :: ys) ++ ']' :: rest)) =
      some (x, ',' :: (encElems (y :: ys) ++ ']' :: rest)))
    (he : parseElems fuel (encElems (y :: ys) ++ ']' :: rest) = some (y :: ys, rest)) :
    parseElems (fuel + 1) (encElems (x :: y :: ys) ++ ']' :: rest) =
      some (x :: y :: ys, rest) := by
  rw [parseElems.eq_def]
  simp only [encElems, List.cons_append, List.append_assoc]
  rw [hv]
  have h1 : skipWs (',' :: (encElems (y :: ys) ++ ']' :: rest)) =
      ',' :: (encElems (y :: ys) ++ ']' :: rest) := skipWs_cons _ _ (by decide)
  simp [h1, he]

theorem parseFields_one (fuel : Nat) (k : String) (v : Json) (rest : List Char)
    (hv : parseVal fuel (encVal v ++ '\x7d' :: rest) = some (v, '\x7d' :: rest)) :
    parseFields (fuel + 1) (encFields [(k, v)] ++ '\x7d' :: rest) = some ([(k, v)], rest) := by
  rw [parseFields.eq_def]
  simp only [encFields, encStr, List.cons_append, List.append_assoc, List.nil_append]
  rw [skipWs_cons _ _ (by decide)]
  have h1 : skipWs (':' :: (encVal v ++ '\x7d' :: rest)) =
      ':' :: (encVal v ++ '\x7d' :: rest) := skipWs_cons _ _ (by decide)
  have h2 : skipWs ('\x7d' :: rest) = '\x7d' :: rest := skipWs_cons _ _ (by decide)
  simp [parseStrBody_escStr, h1, h2, hv, stringMk_data]

theorem parseFields_more (fuel : Nat) (k : String) (v : Json) (f : String × Json)
    (fs : List (String × Json)) (rest : List Char)
    (hv : parseVal fuel (encVal v ++ ',' :: (encFields (f :: fs) ++ '\x7d' :: rest)) =
      some (v, ',' :: (encFields (f :: fs) ++ '\x7d' :: rest)))
    (hf : parseFields fuel (encFields (f :: fs) ++ '\x7d' :: rest) = some (f :: fs, rest)) :
    parseFields (fuel + 1) (encFields ((k, v) :: f :: fs) ++ '\x7d' :: rest) =
      some ((k, v) :: f :: fs, rest) := by
  rw [parseFields.eq_def]
  obtain ⟨k2, v2⟩ := f
  simp only [encFields, encStr, List.cons_append, List.append_assoc, List.nil_append]
  rw [skipWs_cons _ _ (by decide)]
  have h1 : skipWs (':' :: (encVal v ++ (',' :: (encFields ((k2, v2) :: fs) ++ '\x7d' :: rest)))) =
      ':' :: (encVal v ++ (',' :: (encFields ((k2, v2) :: fs) ++ '\x7d' :: rest))) :=
    skipWs_cons _ _ (by decide)
  have h2 : skipWs (',' :: (encFields ((k2, v2) :: fs) ++ '\x7d' :: rest)) =
      ',' :: (encFields ((k2, v2) :: fs) ++ '\x7d' :: rest) := skipWs_cons _ _ (by decide)
  simp [parseStrBody_escStr, h1, h2, hv, hf, stringMk_data]

/-- Main round-trip induction: with enough fuel, the parser inverts the
encoder for values, array bodies, and object bodies, leaving the trailing
input untouched. -/
theorem parse_enc (fuel : Nat) :
    (∀ v rest, jsize v ≤ fuel → goodF rest →
      parseVal fuel (encVal v ++ rest) = some (v, rest)) ∧
    (∀ xs rest, xs ≠ [] → lsize xs ≤ fuel →
      parseElems fuel (encElems xs ++ ']' :: rest) = some (xs, rest)) ∧
    (∀ fs rest, fs ≠ [] → fsize fs ≤ fuel →
      parseFields fuel (encFields fs ++ '\x7d' :: rest) = some (fs, rest)) := by
  induction fuel with
  | zero =>
    refine ⟨fun v rest hs _ => ?_, fun xs rest hne hs => ?_, fun fs rest hne hs => ?_⟩
    · have := jsize_pos v
      omega
    · cases xs with
      | nil => exact absurd rfl hne
      | cons x xs => have := lsize_pos x xs; omega
    · cases fs with
      | nil => exact absurd rfl hne
      | cons f fs => have := fsize_pos f fs; omega
  | succ fuel ih =>
    obtain ⟨IHv, IHe, IHf⟩ := ih
    refine ⟨?_, ?_, ?_⟩
    · intro v rest hs hg
      cases v with
      | null => exact parseVal_null fuel rest
      | bool b => exact parseVal_bool fuel b rest
      | num n => exact parseVal_num fuel n rest hg
      | str s => exact parseVal_str fuel s rest
      | arr xs =>
        cases xs with
        | nil => exact parseVal_arr_nil fuel rest
        | cons x xs2 =>
          rw [parseVal_arr_cons fuel x xs2 rest]
          rw [IHe (x :: xs2) rest (by simp) (by simp only [jsize] at hs; omega)]
          rfl
      | obj fs =>
        cases fs with
        | nil => exact parseVal_obj_nil fuel rest
        | cons f fs2 =>
          obtain ⟨k, v⟩ := f
          rw [parseVal_obj_cons fuel k v fs2 rest]
          rw [IHf ((k, v) :: fs2) rest (by simp) (by simp only [jsize] at hs; omega)]
          rfl
    · intro xs rest hne hs
      cases xs with
      | nil => exact absurd rfl hne
      | cons x xs2 =>
        cases xs2 with
        | nil =>
          apply parseElems_one
          apply IHv
          · simp only [lsize] at hs
            omega
          · exact (by decide : (']' : Char).isDigit = false)
        | cons y ys =>
          apply parseElems_more
          · apply IHv
            · rw [lsize] at hs
              have := lsize_pos y ys
              omega
            · exact (by decide : (',' : Char).isDigit = false)
          · apply IHe
            · simp
            · rw [lsize] at hs
              have := jsize_pos x
              omega
    · intro fs rest hne hs
      cases fs with
      | nil => exact absurd rfl hne
      | cons f fs2 =>
        obtain ⟨k, v⟩ := f
        cases fs2 with
        | nil =>
          apply parseFields_one
          apply IHv
          · have hs2 : jsize v + fsize ([] : List (String × Json)) + 1 ≤ fuel + 1 := hs
            simp only [fsize] at hs2
            omega
          · exact (by decide : ('\x7d' : Char).isDigit = false)
        | cons f2 fs3 =>
          apply parseFields_more
          · apply IHv
            · have hs2 : jsize v + fsize (f2 :: fs3) + 1 ≤ fuel + 1 := hs
              have := fsize_pos f2 fs3
              omega
            · exact (by decide : (',' : Char).isDigit = false)
          · apply IHf
            · simp
            · have hs2 : jsize v + fsize (f2 :: fs3) + 1 ≤ fuel + 1 := hs
              have := jsize_pos v
              omega

mutual

theorem jsize_le_encVal (v : Json) : jsize v ≤ (encVal v).length := by
  cases v with
  | null => simp [jsize, encVal]
  | bool b => cases b <;> simp [jsize, encVal]
  | num n =>
    obtain ⟨c, t, hct, _⟩ := encInt_head n
    simp [jsize, encVal, hct]
  | str s => simp [jsize, encVal, encStr]
  | arr xs =>
    have := lsize_le_encElems xs
    simp only [jsize, encVal, List.length_cons, List.length_append, List.length_singleton]
    omega
  | obj fs =>
    have := fsize_le_encFields fs
    simp only [jsize, encVal, List.length_cons, List.length_append, List.length_singleton]
    omega

theorem lsize_le_encElems (xs : List Json) : lsize xs ≤ (encElems xs).length + 1 := by
  cases xs with
  | nil => simp [lsize, encElems]
  | cons x xs2 =>
    cases xs2 with
    | nil =>
      have := jsize_le_encVal x
      simp only [lsize, encElems]
      omega
    | cons y ys =>
      have h1 := jsize_le_encVal x
      have h2 := lsize_le_encElems (y :: ys)
      rw [lsize, encElems]
      simp only [List.length_append, List.length_cons]
      omega

theorem fsize_le_encFields (fs : List (String × Json)) :
    fsize fs ≤ (encFields fs).length + 1 := by
  cases fs with
  | nil => simp [fsize, encFields]
  | cons f fs2 =>
    obtain ⟨k, v⟩ := f
    cases fs2 with
    | nil =>
      have h1 := jsize_le_encVal v
      have h2 : fsize [(k, v)] = jsize v + 1 := rfl
      rw [h2]
      simp only [encFields, List.length_append, List.length_cons]
      omega
    | cons f2 fs3 =>
      have h1 := jsize_le_encVal v
      have h2 := fsize_le_encFields (f2 :: fs3)
      have h3 : fsize ((k, v) :: f2 :: fs3) = jsize v + fsize (f2 :: fs3) + 1 := rfl
      rw [h3, encFields]
      simp only [List.length_append, List.length_cons]
      omega

end

/-- JSON round trip: parsing the serialization of any value of the grammar
returns exactly that value. -/
theorem parseJson_stringifyJson (v : Json) : parseJson (stringifyJson v) = some v := by
  unfold parseJson stringifyJson
  have hfuel : jsize v ≤ (encVal v).length + 1 := by
    have := jsize_le_encVal v
    omega
  obtain ⟨Pv, _, _⟩ := parse_enc ((encVal v).length + 1)
  have hg : goodF [] := trivial
  have hp := Pv v [] hfuel hg
  rw [List.append_nil] at hp
  show (match parseVal ((encVal v).length + 1) (encVal v) with
    | some (w, rest) => if skipWs rest = [] then some w else none
    | none => none) = some v
  rw [hp]
  simp [skipWs]

/-!
### Database state (src/space/db.js)

Rows carry the columns of the five tables. Timestamps are abstract ticks
(the datetime function of the storage engine is external); rowids assigned
by INTEGER PRIMARY KEY autoincrement are modelled by explicit next-id
counters.
-/

structure UserRow where
  id : Int
  username : String
  password_hash : String
  role : String
deriving DecidableEq

structure ContentRow where
  id : Int
  hero_headline : String
  hero_subtitle : String
  updated_at : Nat
deriving DecidableEq

structure SkillRow where
  id : Int
  label : String
  percent : Rat
  sort : Int
deriving DecidableEq

structure ProjectRow where
  id : Int
  title : String
  summary : String
  stack : String
  links_json : String
  featured : Int
  sort : Int
  created_at : Nat
  updated_at : Nat
deriving DecidableEq

/-- A value inside audit metadata: the handlers only ever store strings and
numbers there. The meta_json column text is the JSON rendering of this flat
object, which is injective on this domain, so the model keeps it
structured. -/
inductive MetaVal where
  | s : String → MetaVal
  | q : Rat → MetaVal
deriving DecidableEq

structure AuditRow where
  id : Int
  actor : String
  action : String
  entity : String
  entity_id : Option Int
  meta : List (String × MetaVal)
  created_at : Nat
deriving DecidableEq

structure Db where
  users : List UserRow
  content : List ContentRow
  skills : List SkillRow
  projects : List ProjectRow
  audit_log : List AuditRow
  nextSkillId : Int
  nextProjectId : Int
  nextAuditId : Int
  now : Nat
deriving DecidableEq

/-- Seed the singleton content row at boot when absent
(src/space/db.js, content seed). -/
def seedContent (db : Db) : Db :=
  if (db.content.find? (fun r => r.id == 1)).isSome then db
  else
    let row : ContentRow :=
      { id := 1,
        hero_headline := "TR-KING — Software Developer",
        hero_subtitle := "I build modern web apps and reliable APIs with JavaScript and Python, and I train custom AI LoRAs as part of practical ML workflows.",
        updated_at := db.now }
    { db with content := db.content ++ [row] }

/-- Append one audit row (the audit helper in src/space/server.js). -/
def audit (db : Db) (actor action entity : String) (entity_id : Option Int)
    (meta : List (String × MetaVal)) : Db :=
  let row : AuditRow :=
    { id := db.nextAuditId, actor := actor, action := action, entity := entity,
      entity_id := entity_id, meta := meta, created_at := db.now }
  { db with audit_log := db.audit_log ++ [row], nextAuditId := db.nextAuditId + 1 }

/-- The session payload established by login: req.session.user. -/
structure SessUser where
  username : String
  role : String
deriving DecidableEq

/-- A server-side session: none when absent or destroyed. -/
abbrev Session := Option SessUser

/-- The requests of the HTTP/JSON API. Body fields are given after the
coercions the handlers apply to the dynamic JSON body: percent is the
result of Number() (none when not a finite number), links is the body
value when it is an array (none otherwise), featured is its truthiness. -/
inductive Req where
  | login (username password : String)
  | logout
  | me
  | publicContent
  | getContent
  | putContent (hero_headline hero_subtitle : String)
  | getSkills
  | postSkills (label : String) (percent : Option Rat) (sort : Int)
  | putSkill (id : Int) (label : String) (percent : Option Rat) (sort : Int)
  | deleteSkill (id : Int)
  | getProjects
  | postProjects (title summary stack : String) (links : Option (List Json))
      (featured : Bool) (sort : Int)
  | putProject (id : Int) (title summary stack : String) (links : Option (List Json))
      (featured : Bool) (sort : Int)
  | deleteProject (id : Int)

/-- The /api/admin/* requests, those behind the requireAuth gate. -/
def Req.isAdmin : Req → Bool
  | .getContent => true
  | .putContent _ _ => true
  | .getSkills => true
  | .postSkills _ _ _ => true
  | .putSkill _ _ _ _ => true
  | .deleteSkill _ => true
  | .getProjects => true
  | .postProjects _ _ _ _ _ _ => true
  | .putProject _ _ _ _ _ _ _ => true
  | .deleteProject _ => true
  | _ => false

structure ContentView where
  hero_headline : String
  hero_subtitle : String
  updated_at : Nat
deriving DecidableEq

structure SkillPublicView where
  id : Int
  label : String
  percent : Rat
deriving DecidableEq

/-- A project row as the listing endpoints return it: the selected columns
plus the links field decoded from links_json (none models a JSON.parse
exception on corrupt stored text). -/
structure ProjView where
  id : Int
  title : String
  summary : String
  stack : String
  links_json : String
  featured : Int
  sort : Int
  updated_at : Nat
  links : Option Json

/-- Responses, as far as the claims observe them. -/
inductive Resp where
  | okSimple
  | okId (id : Int)
  | okUser (u : SessUser)
  | errResp (status : Nat) (msg : String)
  | contentResp (content : Option ContentView)
  | skillsResp (skills : List SkillRow)
  | projectsResp (projects : List ProjView)
  | publicResp (content : Option ContentView) (skills : List SkillPublicView)
      (projects : List ProjView)
  | meResp (user : Option SessUser)

/-- HTTP status of a response: 200 unless an error was sent. -/
def Resp.status : Resp → Nat
  | .errResp s _ => s
  | _ => 200

/-- ORDER BY sort ASC, id ASC — the skills listing order. -/
def skillLe (a b : SkillRow) : Bool :=
  a.sort < b.sort || (a.sort == b.sort && a.id ≤ b.id)

/-- ORDER BY featured DESC, sort ASC, id DESC — the projects listing order. -/
def projLe (a b : ProjectRow) : Bool :=
  b.featured < a.featured || (a.featured == b.featured &&
    (a.sort < b.sort || (a.sort == b.sort && b.id ≤ a.id)))

/-- SELECT hero_headline, hero_subtitle, updated_at FROM content WHERE id=1. -/
def getContentRow (db : Db) : Option ContentView :=
  (db.content.find? (fun r => r.id == 1)).map
    (fun r => { hero_headline := r.hero_headline, hero_subtitle := r.hero_subtitle,
                updated_at := r.updated_at })

/-- links expansion on read: JSON.parse(p.links_json or "[]" when falsy);
none models the uncaught exception on unparseable stored text. -/
def expandLinks (s : String) : Option Json :=
  parseJson (if s = "" then "[]" else s)

def projView (p : ProjectRow) : ProjView :=
  { id := p.id, title := p.title, summary := p.summary, stack := p.stack,
    links_json := p.links_json, featured := p.featured, sort := p.sort,
    updated_at := p.updated_at, links := expandLinks p.links_json }

/-- GET /api/admin/skills row list. -/
def adminSkills (db : Db) : List SkillRow := db.skills.mergeSort skillLe

/-- GET /api/admin/projects row list with links expanded. -/
def adminProjects (db : Db) : List ProjView :=
  (db.projects.mergeSort projLe).map projView

/-- The skills part of GET /api/public/content: same query ordered the same
way, selecting id, label, percent only. -/
def publicSkills (db : Db) : List SkillPublicView :=
  (db.skills.mergeSort skillLe).map
    (fun s => { id := s.id, label := s.label, percent := s.percent })

/-- The projects part of GET /api/public/content. -/
def publicProjects (db : Db) : List ProjView :=
  (db.projects.mergeSort projLe).map projView

/-- One request against the server (src/space/server.js handlers): session
and database in; response, next session, next database out. The bcrypt
comparison is passed in as hashMatches, abstracting the hash function.
Admin handlers check the session first, mirroring the requireAuth
middleware running before any handler logic. -/
def step (hashMatches : String → String → Bool) (sess : Session) (db : Db) :
    Req → Resp × Session × Db
  | .login username password =>
    match db.users.find? (fun u => u.username == username) with
    | none => (.errResp 401 "Invalid credentials", sess, db)
    | some user =>
      if hashMatches password user.password_hash then
        (.okUser { username := user.username, role := user.role },
         some { username := user.username, role := user.role },
         audit db user.username "login" "auth" none [])
      else (.errResp 401 "Invalid credentials", sess, db)
  | .logout =>
    match sess with
    | none => (.errResp 401 "Unauthorized", sess, db)
    | some u => (.okSimple, none, audit db u.username "logout" "auth" none [])
  | .me => (.meResp sess, sess, db)
  | .publicContent =>
    (.publicResp (getContentRow db) (publicSkills db) (publicProjects db), sess, db)
  | .getContent =>
    match sess with
    | none => (.errResp 401 "Unauthorized", sess, db)
    | some _ => (.contentResp (getContentRow db), sess, db)
  | .putContent hero_headline hero_subtitle =>
    match sess with
    | none => (.errResp 401 "Unauthorized", sess, db)
    | some u =>
      if hero_headline = "" || hero_subtitle = "" then
        (.errResp 400 "Missing fields", sess, db)
      else
        let db2 := { db with content := db.content.map (fun r =>
          if r.id == 1 then
            { r with hero_headline := hero_headline.trim,
                     hero_subtitle := hero_subtitle.trim, updated_at := db.now }
          else r) }
        (.okSimple, sess, audit db2 u.username "update" "content" (some 1) [])
  | .getSkills =>
    match sess with
    | none => (.errResp 401 "Unauthorized", sess, db)
    | some _ => (.skillsResp (adminSkills db), sess, db)
  | .postSkills label percent sort =>
    match sess with
    | none => (.errResp 401 "Unauthorized", sess, db)
    | some u =>
      if label = "" then (.errResp 400 "Label required", sess, db)
      else
        match percent with
        | none => (.errResp 400 "Percent 0-100", sess, db)
        | some pct =>
          if pct < 0 || pct > 100 then (.errResp 400 "Percent 0-100", sess, db)
          else
            let id := db.nextSkillId
            let db2 := { db with
              skills := db.skills ++
                [{ id := id, label := label.trim, percent := pct, sort := sort }],
              nextSkillId := id + 1 }
            (.okId id, sess, audit db2 u.username "create" "skill" (some id)
              [("label", .s label), ("percent", .q pct)])
  | .putSkill id label percent sort =>
    match sess with
    | none => (.errResp 401 "Unauthorized", sess, db)
    | some u =>
      if label = "" then (.errResp 400 "Label required", sess, db)
      else
        match percent with
        | none => (.errResp 400 "Percent 0-100", sess, db)
        | some pct =>
          if pct < 0 || pct > 100 then (.errResp 400 "Percent 0-100", sess, db)
          else
            let db2 := { db with skills := db.skills.map (fun r =>
              if r.id == id then
                { id := r.id, label := label.trim, percent := pct, sort := sort }
              else r) }
            (.okSimple, sess, audit db2 u.username "update" "skill" (some id)
              [("label", .s label), ("percent", .q pct)])
  | .deleteSkill id =>
    match sess with
    | none => (.errResp 401 "Unauthorized", sess, db)
    | some u =>
      let db2 := { db with skills := db.skills.filter (fun r => !(r.id == id)) }
      (.okSimple, sess, audit db2 u.username "delete" "skill" (some id) [])
  | .getProjects =>
    match sess with
    | none => (.errResp 401 "Unauthorized", sess, db)
    | some _ => (.projectsResp (adminProjects db), sess, db)
  | .postProjects title summary stack links featured sort =>
    match sess with
    | none => (.errResp 401 "Unauthorized", sess, db)
    | some u =>
      if title = "" || summary = "" then
        (.errResp 400 "Title and summary required", sess, db)
      else
        let id := db.nextProjectId
        let row : ProjectRow :=
          { id := id, title := title.trim, summary := summary.trim, stack := stack.trim,
            links_json := stringifyJson (.arr (links.getD [])),
            featured := if featured then 1 else 0, sort := sort,
            created_at := db.now, updated_at := db.now }
        let db2 := { db with projects := db.projects ++ [row], nextProjectId := id + 1 }
        (.okId id, sess, audit db2 u.username "create" "project" (some id)
          [("title", .s title)])
  | .putProject id title summary stack links featured sort =>
    match sess with
    | none => (.errResp 401 "Unauthorized", sess, db)
    | some u =>
      if title = "" || summary = "" then
        (.errResp 400 "Title and summary required", sess, db)
      else
        let db2 := { db with projects := db.projects.map (fun r =>
          if r.id == id then
            { id := r.id, title := title.trim, summary := summary.trim,
              stack := stack.trim,
              links_json := stringifyJson (.arr (links.getD [])),
              featured := if featured then 1 else 0, sort := sort,
              created_at := r.created_at, updated_at := db.now }
          else r) }
        (.okSimple, sess, audit db2 u.username "update" "project" (some id)
          [("title", .s title)])
  | .deleteProject id =>
    match sess with
    | none => (.errResp 401 "Unauthorized", sess, db)
    | some u =>
      let db2 := { db with projects := db.projects.filter (fun r => !(r.id == id)) }
      (.okSimple, sess, audit db2 u.username "delete" "project" (some id) [])

/-- The invariant of claim C9: a content row with id 1 is present. -/
def contentExists (db : Db) : Prop := ∃ r ∈ db.content, r.id = 1

/-- The row update applied by PUT /api/admin/content. -/
def contentUpd (headline subtitle : String) (now : Nat) (r : ContentRow) : ContentRow :=
  if r.id == 1 then
    { r with hero_headline := headline.trim, hero_subtitle := subtitle.trim, updated_at := now }
  else r

theorem contentUpd_id (headline subtitle : String) (now : Nat) (r : ContentRow) :
    (contentUpd headline subtitle now r).id = r.id := by
  rw [contentUpd]
  split <;> rfl

/-- Reading the content row after the PUT handler's row update yields the
trimmed fields stamped with the current time, whenever the row exists. -/
theorem getContentRow_after_upd (db : Db) (h s : String) (hex : contentExists db) :
    Option.map
      (fun r => ({ hero_headline := r.hero_headline, hero_subtitle := r.hero_subtitle,
                   updated_at := r.updated_at } : ContentView))
      ((db.content.map (contentUpd h s db.now)).find? (fun r => r.id == 1)) =
      some { hero_headline := h.trim, hero_subtitle := s.trim, updated_at := db.now } := by
  obtain ⟨r, hr, hrid⟩ := hex
  rw [List.find?_map]
  have hpred : ((fun (x : ContentRow) => x.id == 1) ∘ contentUpd h s db.now) =
      (fun (x : ContentRow) => x.id == 1) := by
    funext x
    simp [Function.comp, contentUpd_id]
  rw [hpred]
  have hsome : (db.content.find? (fun x => x.id == 1)).isSome := by
    rw [List.find?_isSome]
    exact ⟨r, hr, by simp [hrid]⟩
  obtain ⟨r2, hr2⟩ := Option.isSome_iff_exists.mp hsome
  have hr2id : r2.id = 1 := by
    have := List.find?_some hr2
    simpa using this
  rw [hr2]
  simp [contentUpd, hr2id]

/-- C1: for every valid pair that passes validation, updating the content
then reading it returns exactly the trimmed headline and subtitle, stamped
with the current time, and exactly one audit entry with action update and
entity content is appended. -/
theorem C1_update_then_get_content (hm : String → String → Bool) (u : SessUser) (db : Db)
    (headline subtitle : String) (hex : contentExists db)
    (hh : headline ≠ "") (hs : subtitle ≠ "") :
    (step hm (some u) db (.putContent headline subtitle)).1 = .okSimple ∧
    (step hm ((step hm (some u) db (.putContent headline subtitle)).2.1)
        ((step hm (some u) db (.putContent headline subtitle)).2.2) .getContent).1 =
      .contentResp (some { hero_headline := headline.trim,
                           hero_subtitle := subtitle.trim,
                           updated_at := db.now }) ∧
    ∃ e, (step hm (some u) db (.putContent headline subtitle)).2.2.audit_log =
        db.audit_log ++ [e] ∧ e.action = "update" ∧ e.entity = "content" := by
  obtain ⟨r, hr, hrid⟩ := hex
  have hcond : (headline = "" || subtitle = "") = false := by
    simp [hh, hs]
  have hcond2 : ¬((headline = "" || subtitle = "") = true) := by
    simp [hh, hs]
  have hstep : step hm (some u) db (.putContent headline subtitle) =
      (.okSimple, some u,
        audit { db with content := db.content.map (contentUpd headline subtitle db.now) }
          u.username "update" "content" (some 1) []) := if_neg hcond2
  refine ⟨by rw [hstep], ?_, ?_⟩
  · rw [hstep]
    show (Resp.contentResp (getContentRow _), _, _).1 = _
    simp only [getContentRow, audit]
    exact congrArg Resp.contentResp (getContentRow_after_upd db headline subtitle ⟨r, hr, hrid⟩)
  · rw [hstep]
    exact ⟨_, rfl, rfl, rfl⟩

instance decContentExists (db : Db) : Decidable (contentExists db) :=
  inferInstanceAs (Decidable (∃ r ∈ db.content, r.id = 1))

/-- A concrete authenticated session payload used by the closed instances. -/
def cexUser : SessUser := { username := "admin", role := "admin" }

/-- A concrete database with the seeded admin user and content row. -/
def cexDb : Db :=
  { users := [{ id := 1, username := "admin", password_hash := "h", role := "admin" }],
    content := [{ id := 1, hero_headline := "Hello", hero_subtitle := "World", updated_at := 0 }],
    skills := [], projects := [], audit_log := [],
    nextSkillId := 1, nextProjectId := 1, nextAuditId := 1, now := 5 }

theorem C1_update_then_get_content_witness :
    contentExists cexDb ∧ ("A " ≠ "") ∧ (" B" ≠ "") ∧
    ((step (fun _ _ => true) (some cexUser) cexDb (.putContent "A " " B")).1 = .okSimple ∧
     (step (fun _ _ => true)
        ((step (fun _ _ => true) (some cexUser) cexDb (.putContent "A " " B")).2.1)
        ((step (fun _ _ => true) (some cexUser) cexDb (.putContent "A " " B")).2.2)
        .getContent).1 =
       .contentResp (some { hero_headline := "A ".trim,
                            hero_subtitle := " B".trim,
                            updated_at := cexDb.now }) ∧
     ∃ e, (step (fun _ _ => true) (some cexUser) cexDb (.putContent "A " " B")).2.2.audit_log =
        cexDb.audit_log ++ [e] ∧ e.action = "update" ∧ e.entity = "content") :=
  ⟨by decide, by decide, by decide,
   C1_update_then_get_content (fun _ _ => true) cexUser cexDb "A " " B"
     (by decide) (by decide) (by decide)⟩

/-- C2: a percent outside 0..100 or not coercible to a finite number makes
both skill creation and skill update fail with a 400 validation error, and
the whole database state, the skills table and the audit log included, is
unchanged. -/
theorem C2_skill_percent_validation (hm : String → String → Bool) (u : SessUser) (db : Db)
    (label : String) (percent : Option Rat) (srt : Int) (id : Int)
    (hbad : percent = none ∨ ∃ q, percent = some q ∧ (q < 0 ∨ 100 < q)) :
    (∃ msg, (step hm (some u) db (.postSkills label percent srt)).1 = .errResp 400 msg ∧
        (step hm (some u) db (.postSkills label percent srt)).2.2 = db) ∧
    (∃ msg, (step hm (some u) db (.putSkill id label percent srt)).1 = .errResp 400 msg ∧
        (step hm (some u) db (.putSkill id label percent srt)).2.2 = db) := by
  by_cases hl : label = ""
  · exact ⟨⟨"Label required", by simp [step, hl], by simp [step, hl]⟩,
           ⟨"Label required", by simp [step, hl], by simp [step, hl]⟩⟩
  · rcases hbad with hnone | ⟨q, hq, hor⟩
    · subst hnone
      exact ⟨⟨"Percent 0-100", by simp [step, hl], by simp [step, hl]⟩,
             ⟨"Percent 0-100", by simp [step, hl], by simp [step, hl]⟩⟩
    · subst hq
      have hb : (q < 0 || q > 100) = true := by
        rcases hor with h | h <;> simp [h]
      exact ⟨⟨"Percent 0-100", by simp [step, hl, hb], by simp [step, hl, hb]⟩,
             ⟨"Percent 0-100", by simp [step, hl, hb], by simp [step, hl, hb]⟩⟩

theorem C2_skill_percent_validation_witness :
    ((some (101 : Rat) : Option Rat) = none ∨
      ∃ q, (some (101 : Rat) : Option Rat) = some q ∧ (q < 0 ∨ 100 < q)) ∧
    ((∃ msg, (step (fun _ _ => true) (some cexUser) cexDb
          (.postSkills "Go" (some 101) 0)).1 = .errResp 400 msg ∧
        (step (fun _ _ => true) (some cexUser) cexDb
          (.postSkills "Go" (some 101) 0)).2.2 = cexDb) ∧
     (∃ msg, (step (fun _ _ => true) (some cexUser) cexDb
          (.putSkill 1 "Go" (some 101) 0)).1 = .errResp 400 msg ∧
        (step (fun _ _ => true) (some cexUser) cexDb
          (.putSkill 1 "Go" (some 101) 0)).2.2 = cexDb)) :=
  ⟨Or.inr ⟨101, rfl, Or.inr (by norm_num)⟩,
   C2_skill_percent_validation (fun _ _ => true) cexUser cexDb "Go" (some 101) 0 1
     (Or.inr ⟨101, rfl, Or.inr (by norm_num)⟩)⟩

/-- C8: deleting a skill id that is not in the table still answers ok and
appends exactly one delete audit entry for that id; the skills table is
untouched. -/
theorem C8_delete_absent_skill (hm : String → String → Bool) (u : SessUser) (db : Db)
    (id : Int) (habs : ∀ r ∈ db.skills, r.id ≠ id) :
    (step hm (some u) db (.deleteSkill id)).1 = .okSimple ∧
    (step hm (some u) db (.deleteSkill id)).2.2.skills = db.skills ∧
    ∃ e, (step hm (some u) db (.deleteSkill id)).2.2.audit_log = db.audit_log ++ [e] ∧
      e.action = "delete" ∧ e.entity = "skill" ∧ e.entity_id = some id := by
  have hfilter : db.skills.filter (fun r => !(r.id == id)) = db.skills := by
    rw [List.filter_eq_self]
    intro a ha
    simp [habs a ha]
  refine ⟨rfl, ?_, ⟨_, rfl, rfl, rfl, rfl⟩⟩
  show (audit { db with skills := db.skills.filter (fun r => !(r.id == id)) }
    u.username "delete" "skill" (some id) []).skills = db.skills
  simp [audit, hfilter]

theorem C8_delete_absent_skill_witness :
    (∀ r ∈ cexDb.skills, r.id ≠ (7 : Int)) ∧
    ((step (fun _ _ => true) (some cexUser) cexDb (.deleteSkill 7)).1 = .okSimple ∧
     (step (fun _ _ => true) (some cexUser) cexDb (.deleteSkill 7)).2.2.skills =
       cexDb.skills ∧
     ∃ e, (step (fun _ _ => true) (some cexUser) cexDb (.deleteSkill 7)).2.2.audit_log =
        cexDb.audit_log ++ [e] ∧ e.action = "delete" ∧ e.entity = "skill" ∧
        e.entity_id = some 7) :=
  ⟨by decide,
   C8_delete_absent_skill (fun _ _ => true) cexUser cexDb 7 (by decide)⟩

/-- C3 counterexample: a whitespace-only headline is not rejected. The
handler tests truthiness before trimming, so the request with headline
a single space is accepted with 200 ok and the stored headline becomes
the empty string after trimming — where the claim demands a validation
rejection and an unchanged row. -/
theorem C3_whitespace_headline_counterexample :
    (step (fun _ _ => true) (some cexUser) cexDb (.putContent " " "x")).1 = .okSimple ∧
    (step (fun _ _ => true) (some cexUser) cexDb (.putContent " " "x")).1.status = 200 :=
  ⟨rfl, rfl⟩

/-- C3 amended: the handler requires both fields truthy, that is non-empty
before trimming. An empty-string field is rejected with a 400 validation
error and the state is unchanged; any other pair (whitespace-only fields
included) is accepted: the row is fully replaced with the trimmed fields
and the update time is stamped. -/
theorem C3_content_validation (hm : String → String → Bool) (u : SessUser) (db : Db)
    (h s : String) :
    ((h = "" ∨ s = "") →
      (step hm (some u) db (.putContent h s)).1 = .errResp 400 "Missing fields" ∧
      (step hm (some u) db (.putContent h s)).2.2 = db) ∧
    (h ≠ "" → s ≠ "" → contentExists db →
      (step hm (some u) db (.putContent h s)).1 = .okSimple ∧
      getContentRow (step hm (some u) db (.putContent h s)).2.2 =
        some { hero_headline := h.trim, hero_subtitle := s.trim, updated_at := db.now } ∧
      ∃ e, (step hm (some u) db (.putContent h s)).2.2.audit_log = db.audit_log ++ [e]) := by
  constructor
  · intro hor
    have hcond : ((h = "" || s = "") = true) := by
      rcases hor with h1 | h1 <;> simp [h1]
    have hstep : step hm (some u) db (.putContent h s) =
        (.errResp 400 "Missing fields", some u, db) := if_pos hcond
    rw [hstep]
    exact ⟨rfl, rfl⟩
  · intro hh hs hex
    have hcond2 : ¬((h = "" || s = "") = true) := by
      simp [hh, hs]
    have hstep : step hm (some u) db (.putContent h s) =
        (.okSimple, some u,
          audit { db with content := db.content.map (contentUpd h s db.now) }
            u.username "update" "content" (some 1) []) := if_neg hcond2
    rw [hstep]
    refine ⟨rfl, ?_, ⟨_, rfl⟩⟩
    simp only [getContentRow, audit]
    exact getContentRow_after_upd db h s hex

theorem C3_content_validation_witness :
    (("" = "" ∨ "x" = "") →
      (step (fun _ _ => true) (some cexUser) cexDb (.putContent "" "x")).1 =
        .errResp 400 "Missing fields" ∧
      (step (fun _ _ => true) (some cexUser) cexDb (.putContent "" "x")).2.2 = cexDb) ∧
    (("" : String) = "" ∨ ("x" : String) = "") ∧
    (" a " ≠ "" → "b" ≠ "" → contentExists cexDb →
      (step (fun _ _ => true) (some cexUser) cexDb (.putContent " a " "b")).1 = .okSimple ∧
      getContentRow (step (fun _ _ => true) (some cexUser) cexDb
          (.putContent " a " "b")).2.2 =
        some { hero_headline := " a ".trim, hero_subtitle := "b".trim,
               updated_at := cexDb.now } ∧
      ∃ e, (step (fun _ _ => true) (some cexUser) cexDb
          (.putContent " a " "b")).2.2.audit_log = cexDb.audit_log ++ [e]) ∧
    (" a " ≠ "") ∧ ("b" ≠ "") ∧ contentExists cexDb :=
  ⟨(C3_content_validation (fun _ _ => true) cexUser cexDb "" "x").1,
   Or.inl rfl,
   (C3_content_validation (fun _ _ => true) cexUser cexDb " a " "b").2,
   by decide, by decide, by decide⟩

/-- C4: a wrong password for an existing username and a nonexistent
username produce byte-identical login outcomes: the same 401 status, the
same Invalid credentials message, and an unchanged session and database —
the two runs are indistinguishable to the client. -/
theorem C4_login_enumeration_safe (hm : String → String → Bool) (sess : Session) (db : Db)
    (u1 p1 u2 p2 : String) (usr : UserRow)
    (h1 : db.users.find? (fun x => x.username == u1) = some usr)
    (h2 : hm p1 usr.password_hash = false)
    (h3 : db.users.find? (fun x => x.username == u2) = none) :
    step hm sess db (.login u1 p1) = (.errResp 401 "Invalid credentials", sess, db) ∧
    step hm sess db (.login u2 p2) = (.errResp 401 "Invalid credentials", sess, db) := by
  constructor
  · simp [step, h1, h2]
  · simp [step, h3]

theorem C4_login_enumeration_safe_witness :
    cexDb.users.find? (fun x => x.username == "admin") =
      some { id := 1, username := "admin", password_hash := "h", role := "admin" } ∧
    ((fun _ _ => false) "wrong" "h" : Bool) = false ∧
    cexDb.users.find? (fun x => x.username == "ghost") = none ∧
    (step (fun _ _ => false) none cexDb (.login "admin" "wrong") =
      (.errResp 401 "Invalid credentials", none, cexDb) ∧
     step (fun _ _ => false) none cexDb (.login "ghost" "pw") =
      (.errResp 401 "Invalid credentials", none, cexDb)) :=
  ⟨by decide, rfl, by decide,
   C4_login_enumeration_safe (fun _ _ => false) none cexDb "admin" "wrong" "ghost" "pw"
     { id := 1, username := "admin", password_hash := "h", role := "admin" }
     (by decide) rfl (by decide)⟩

/-- Any /api/admin/* request without a session is rejected by the
requireAuth gate with 401 before handler logic runs: the state is returned
untouched. -/
theorem adminReq_unauth (hm : String → String → Bool) (db : Db) (req : Req)
    (hadm : req.isAdmin = true) :
    step hm none db req = (.errResp 401 "Unauthorized", none, db) := by
  cases req <;> simp [Req.isAdmin] at hadm <;> rfl

/-- C5: a sessionless request to any admin endpoint yields 401 with no
state change, and after logout the session is destroyed: /api/me then
reports no user and admin endpoints answer 401 without changing state. -/
theorem C5_auth_gate_and_logout (hm : String → String → Bool) (db : Db) (req : Req)
    (u : SessUser) (hadm : req.isAdmin = true) :
    (step hm none db req).1 = .errResp 401 "Unauthorized" ∧
    (step hm none db req).2.2 = db ∧
    (step hm (some u) db .logout).2.1 = none ∧
    (step hm (step hm (some u) db .logout).2.1
        (step hm (some u) db .logout).2.2 .me).1 = .meResp none ∧
    (step hm (step hm (some u) db .logout).2.1
        (step hm (some u) db .logout).2.2 req).1 = .errResp 401 "Unauthorized" ∧
    (step hm (step hm (some u) db .logout).2.1
        (step hm (some u) db .logout).2.2 req).2.2 =
      (step hm (some u) db .logout).2.2 := by
  have h1 := adminReq_unauth hm db req hadm
  have h2 := adminReq_unauth hm (audit db u.username "logout" "auth" none []) req hadm
  have hlog : step hm (some u) db .logout =
      (.okSimple, none, audit db u.username "logout" "auth" none []) := rfl
  rw [hlog]
  exact ⟨by rw [h1], by rw [h1], rfl, rfl, by rw [h2], by rw [h2]⟩

theorem C5_auth_gate_and_logout_witness :
    (Req.getSkills).isAdmin = true ∧
    ((step (fun _ _ => true) none cexDb .getSkills).1 = .errResp 401 "Unauthorized" ∧
     (step (fun _ _ => true) none cexDb .getSkills).2.2 = cexDb ∧
     (step (fun _ _ => true) (some cexUser) cexDb .logout).2.1 = none ∧
     (step (fun _ _ => true) (step (fun _ _ => true) (some cexUser) cexDb .logout).2.1
        (step (fun _ _ => true) (some cexUser) cexDb .logout).2.2 .me).1 = .meResp none ∧
     (step (fun _ _ => true) (step (fun _ _ => true) (some cexUser) cexDb .logout).2.1
        (step (fun _ _ => true) (some cexUser) cexDb .logout).2.2 .getSkills).1 =
       .errResp 401 "Unauthorized" ∧
     (step (fun _ _ => true) (step (fun _ _ => true) (some cexUser) cexDb .logout).2.1
        (step (fun _ _ => true) (some cexUser) cexDb .logout).2.2 .getSkills).2.2 =
       (step (fun _ _ => true) (some cexUser) cexDb .logout).2.2) :=
  ⟨rfl, C5_auth_gate_and_logout (fun _ _ => true) cexDb .getSkills cexUser rfl⟩

/-- The skills listing order of the specification: sort ascending, id
ascending. -/
def skillOrder (a b : SkillRow) : Prop :=
  a.sort < b.sort ∨ (a.sort = b.sort ∧ a.id ≤ b.id)

/-- The projects listing order of the specification, on returned rows:
featured first, then sort ascending, then id descending. -/
def projViewOrder (a b : ProjView) : Prop :=
  b.featured < a.featured ∨
    (a.featured = b.featured ∧ (a.sort < b.sort ∨ (a.sort = b.sort ∧ b.id ≤ a.id)))

theorem skillLe_iff (a b : SkillRow) : skillLe a b = true ↔ skillOrder a b := by
  simp [skillLe, skillOrder]

theorem skillLe_trans (a b c : SkillRow) : skillLe a b → skillLe b c → skillLe a c := by
  simp only [skillLe, Bool.or_eq_true, Bool.and_eq_true, decide_eq_true_eq, beq_iff_eq]
  omega

theorem skillLe_total (a b : SkillRow) : skillLe a b || skillLe b a := by
  simp only [skillLe, Bool.or_eq_true, Bool.and_eq_true, decide_eq_true_eq, beq_iff_eq]
  omega

theorem projLe_iff (a b : ProjectRow) :
    projLe a b = true ↔ projViewOrder (projView a) (projView b) := by
  simp [projLe, projViewOrder, projView]

theorem projLe_trans (a b c : ProjectRow) : projLe a b → projLe b c → projLe a c := by
  simp only [projLe, Bool.or_eq_true, Bool.and_eq_true, decide_eq_true_eq, beq_iff_eq]
  omega

theorem projLe_total (a b : ProjectRow) : projLe a b || projLe b a := by
  simp only [projLe, Bool.or_eq_true, Bool.and_eq_true, decide_eq_true_eq, beq_iff_eq]
  omega

/-- C6: for every database state, the skills listing is totally ordered by
(sort ascending, id ascending) and is a permutation of the skills table,
and the projects listing is ordered by (featured first, sort ascending, id
descending) and is a permutation of the decorated projects table. -/
theorem C6_listing_order (db : Db) :
    (adminSkills db).Pairwise skillOrder ∧ (adminSkills db).Perm db.skills ∧
    (adminProjects db).Pairwise projViewOrder ∧
    (adminProjects db).Perm (db.projects.map projView) := by
  refine ⟨?_, List.mergeSort_perm db.skills skillLe, ?_,
    (List.mergeSort_perm db.projects projLe).map projView⟩
  · exact (List.sorted_mergeSort skillLe_trans skillLe_total db.skills).imp
      (fun hab => (skillLe_iff _ _).mp hab)
  · rw [show adminProjects db = (db.projects.mergeSort projLe).map projView from rfl,
      List.pairwise_map]
    exact (List.sorted_mergeSort projLe_trans projLe_total db.projects).imp
      (fun hab => (projLe_iff _ _).mp hab)

theorem stringifyJson_arr_ne_empty (l : List Json) : stringifyJson (.arr l) ≠ "" := by
  intro h
  have hd := congrArg String.data h
  simp only [stringifyJson, encVal] at hd
  simp at hd

/-- Decoding what the create handler stores for a links list returns
exactly that list: the storage composition is the identity. -/
theorem expandLinks_stringify (l : List Json) :
    expandLinks (stringifyJson (.arr l)) = some (.arr l) := by
  rw [expandLinks, if_neg (stringifyJson_arr_ne_empty l)]
  exact parseJson_stringifyJson (.arr l)

/-- The row INSERT INTO projects stores for a create request with an array
links body. -/
def newProjectRow (db : Db) (title summary stack : String) (links : List Json)
    (featured : Bool) (srt : Int) : ProjectRow :=
  { id := db.nextProjectId, title := title.trim, summary := summary.trim,
    stack := stack.trim, links_json := stringifyJson (.arr links),
    featured := if featured then 1 else 0, sort := srt,
    created_at := db.now, updated_at := db.now }

/-- C7: creating a project with a links list and then listing projects
yields a row whose links field deep-equals the original list. -/
theorem C7_project_links_roundtrip (hm : String → String → Bool) (u : SessUser) (db : Db)
    (title summary stack : String) (links : List Json) (featured : Bool) (srt : Int)
    (ht : title ≠ "") (hs : summary ≠ "") :
    (step hm (some u) db
        (.postProjects title summary stack (some links) featured srt)).1 =
      .okId db.nextProjectId ∧
    ∃ p ∈ adminProjects (step hm (some u) db
        (.postProjects title summary stack (some links) featured srt)).2.2,
      p.id = db.nextProjectId ∧ p.links = some (Json.arr links) ∧
      p.links_json = stringifyJson (Json.arr links) := by
  have hcond : ¬((title = "" || summary = "") = true) := by simp [ht, hs]
  have hstep : step hm (some u) db
      (.postProjects title summary stack (some links) featured srt) =
      (.okId db.nextProjectId, some u,
        audit { db with
            projects := db.projects ++ [newProjectRow db title summary stack links featured srt],
            nextProjectId := db.nextProjectId + 1 }
          u.username "create" "project" (some db.nextProjectId) [("title", .s title)]) :=
    if_neg hcond
  rw [hstep]
  refine ⟨rfl, projView (newProjectRow db title summary stack links featured srt),
    ?_, rfl, ?_, rfl⟩
  · apply List.mem_map_of_mem
    rw [List.mem_mergeSort]
    exact List.mem_append_right _ (List.mem_singleton_self _)
  · exact expandLinks_stringify links

theorem C7_project_links_roundtrip_witness :
    ("Site" ≠ "") ∧ ("Sum" ≠ "") ∧
    ((step (fun _ _ => true) (some cexUser) cexDb
        (.postProjects "Site" "Sum" ""
          (some [Json.obj [("url", Json.str "https://x"), ("label", Json.str "x")]])
          false 0)).1 = .okId cexDb.nextProjectId ∧
     ∃ p ∈ adminProjects (step (fun _ _ => true) (some cexUser) cexDb
        (.postProjects "Site" "Sum" ""
          (some [Json.obj [("url", Json.str "https://x"), ("label", Json.str "x")]])
          false 0)).2.2,
       p.id = cexDb.nextProjectId ∧
       p.links = some (Json.arr [Json.obj [("url", Json.str "https://x"),
         ("label", Json.str "x")]]) ∧
       p.links_json = stringifyJson (Json.arr [Json.obj [("url", Json.str "https://x"),
         ("label", Json.str "x")]])) :=
  ⟨by decide, by decide,
   C7_project_links_roundtrip (fun _ _ => true) cexUser cexDb "Site" "Sum" ""
     [Json.obj [("url", Json.str "https://x"), ("label", Json.str "x")]] false 0
     (by decide) (by decide)⟩

/-- Classification of every request's effect on the content table: it is
left alone, or mapped by the id-preserving update of the content handler.
No handler deletes from or inserts into content. -/
theorem step_content_effect (hm : String → String → Bool) (sess : Session) (db : Db)
    (req : Req) :
    (step hm sess db req).2.2.content = db.content ∨
    ∃ h s, (step hm sess db req).2.2.content = db.content.map (contentUpd h s db.now) := by
  cases req <;> simp only [step] <;> (repeat' split) <;>
    first
    | exact Or.inl rfl
    | exact Or.inl trivial
    | exact Or.inr ⟨_, _, rfl⟩

/-- C9: the singleton content row exists after boot seeding no matter the
prior state, every request of the API preserves its existence, and no
request changes the number of content rows with id 1 — content is only
ever updated in place, never inserted or deleted. -/
theorem C9_content_row_invariant (hm : String → String → Bool) (sess : Session) (db : Db)
    (req : Req) :
    contentExists (seedContent db) ∧
    (contentExists db → contentExists (step hm sess db req).2.2) ∧
    (step hm sess db req).2.2.content.countP (fun r => r.id == 1) =
      db.content.countP (fun r => r.id == 1) := by
  refine ⟨?_, ?_, ?_⟩
  · by_cases hc : (db.content.find? (fun r => r.id == 1)).isSome
    · rw [seedContent, if_pos hc]
      obtain ⟨r, hr, hp⟩ := List.find?_isSome.mp hc
      exact ⟨r, hr, by simpa using hp⟩
    · rw [seedContent, if_neg hc]
      refine ⟨_, List.mem_append_right _ (List.mem_singleton_self _), rfl⟩
  · intro hex
    obtain ⟨r, hr, hrid⟩ := hex
    rcases step_content_effect hm sess db req with heq | ⟨h, s, heq⟩
    · exact ⟨r, by rw [heq]; exact hr, hrid⟩
    · refine ⟨contentUpd h s db.now r, by rw [heq]; exact List.mem_map_of_mem _ hr, ?_⟩
      rw [contentUpd_id]
      exact hrid
  · rcases step_content_effect hm sess db req with heq | ⟨h, s, heq⟩
    · rw [heq]
    · rw [heq, List.countP_map]
      congr 1
      funext x
      simp [Function.comp, contentUpd_id]

theorem C9_content_row_invariant_witness :
    contentExists (seedContent cexDb) ∧ contentExists cexDb ∧
    contentExists (step (fun _ _ => true) (some cexUser) cexDb (.deleteSkill 1)).2.2 ∧
    (step (fun _ _ => true) (some cexUser) cexDb (.deleteSkill 1)).2.2.content.countP
        (fun r => r.id == 1) =
      cexDb.content.countP (fun r => r.id == 1) :=
  ⟨(C9_content_row_invariant (fun _ _ => true) (some cexUser) cexDb (.deleteSkill 1)).1,
   by decide,
   (C9_content_row_invariant (fun _ _ => true) (some cexUser) cexDb (.deleteSkill 1)).2.1
     (by decide),
   (C9_content_row_invariant (fun _ _ => true) (some cexUser) cexDb (.deleteSkill 1)).2.2⟩

/-- C10: the public aggregation endpoint returns exactly the admin
listings: its skills array is the admin skills list with the sort column
projected away, in the same order, and its projects array equals the admin
projects list, links expanded the same way. -/
theorem C10_public_equals_admin_views (hm : String → String → Bool) (sess : Session)
    (db : Db) (u : SessUser) :
    (step hm sess db .publicContent).1 =
      .publicResp (getContentRow db)
        ((adminSkills db).map
          (fun s => { id := s.id, label := s.label, percent := s.percent }))
        (adminProjects db) ∧
    (step hm (some u) db .getSkills).1 = .skillsResp (adminSkills db) ∧
    (step hm (some u) db .getProjects).1 = .projectsResp (adminProjects db) :=
  ⟨rfl, rfl, rfl⟩
